import Mathlib

set_option maxHeartbeats 1000000

/-
  Verification development for the `collect` utility.

  The definitions below are a shallow embedding of the program's source:
  - `src/args.rs`   : the `-exec` / `-exec{}` argument mini-language parser;
  - `src/exec.rs`   : the exec dispatcher (`run_single`, `spawn_from`);
  - `src/buffers.rs`: the growable heap buffer (`Vec<u8>` as `MutBuffer`);
  - `src/main.rs`   : the two capture/replay strategies (`work::buffered`,
                      `work::memfd`) and `fn main`;
  - `src/memfile/fd.rs` : the niche-packed `NonNegativeI32` descriptor wrapper.

  Bytes are modelled as `Nat`, byte streams as `List Nat`; the incoming stream
  is an arbitrary chunking (`List (List Nat)`) of the input, matching the
  chunked reads `io::copy` performs.  OS strings are modelled as `String`.
-/

/-! ### Argument model and parser (`src/args.rs`) -/

/-- `args.rs:17` — the positional replacement literal. (Braces escaped.) -/
def POSITIONAL_ARG_STRING : String := "\x7b\x7d"

/-- `args.rs:25` — the token terminating an `-exec` / `-exec{}` argument list. -/
def EXEC_MODE_STRING_TERMINATOR : String := ";"

/-- `args.rs:29` — `pub enum ExecMode`: a parsed `-exec` / `-exec{}` spec.
In `Positional`, a `none` entry is a placeholder slot. -/
inductive ExecMode
  | stdin (command : String) (args : List String)
  | positional (command : String) (args : List (Option String))
deriving DecidableEq, Repr

/-- `args.rs:271` — `pub struct Options`: the ordered list of exec specs. -/
structure Options where
  exec : List ExecMode
deriving DecidableEq, Repr

/-- `args.rs:425` — `pub enum ArgParseError`.  `InvalidUsage`'s boxed `inner`
cause is dropped (it only wraps the same information for display). -/
inductive ArgParseError
  | withIndex (idx : Nat) (inner : ArgParseError)
  | unknownOption (opt : String)
  | invalidUsage (argument : String) (message : String)
deriving DecidableEq, Repr

/-- `args.rs:591` — `parsers::ExecMode`, the parser selector for the two modes. -/
inductive ParserExecMode
  | stdinP
  | positionalP
deriving DecidableEq, Repr

/-- `args.rs:597` — `parsers::ExecMode::is_positional`. -/
def ParserExecMode.isPositionalP : ParserExecMode → Bool
  | .stdinP => false
  | .positionalP => true

/-- `args.rs:605` — `parsers::ExecMode::command_string`. -/
def commandString : ParserExecMode → String
  | .stdinP => "-exec"
  | .positionalP => "-exec\x7b\x7d"

/-- `args.rs:641` — `parsers::ExecMode::visit`: which flag token opens a spec. -/
def visit (argument : String) : Option ParserExecMode :=
  if argument = "-exec" then some .stdinP
  else if argument = "-exec\x7b\x7d" then some .positionalP
  else none

/-- `args.rs:655-698` — the non-fatal diagnostics the parser can log. -/
inductive ParseWarning
  | execpNoPositionalReplacements
  | execApparentMissingTerminator (firstIsPositional secondIsPositional : Bool)
      (command : String) (argumentNumber : Nat)
  | execpCommandNotSubstituted
  | execTerminatorAsCommand (execArgStr : String)
deriving DecidableEq, Repr

/-- `args.rs:704-709` — `test_warn_missing_term`, applied to each collected
argument (1-based argument number). -/
def argWarnings (selfIsPositional : Bool) (command : String) (args : List String) :
    List ParseWarning :=
  args.enum.filterMap (fun p =>
    match visit p.2 with
    | none => none
    | some v =>
        some (.execApparentMissingTerminator selfIsPositional v.isPositionalP command (p.1 + 1)))

/-- `args.rs:700-741` — the body of `parsers::ExecMode::parse` once the command
token and the (already terminator-delimited) argument tokens are in hand:
builds the `ExecMode` value and the warnings the source would log.
In positional mode each argument equal to `POSITIONAL_ARG_STRING` becomes a
placeholder (`none`); `repl_warn` fires iff no argument equals it. -/
def mkSpec : ParserExecMode → String → List String → ExecMode × List ParseWarning
  | .stdinP, command, args =>
      (.stdin command args,
        (if command = EXEC_MODE_STRING_TERMINATOR
          then [ParseWarning.execTerminatorAsCommand (commandString .stdinP)] else [])
        ++ argWarnings false command args)
  | .positionalP, command, args =>
      (.positional command
          (args.map (fun x => if x = POSITIONAL_ARG_STRING then none else some x)),
        (if command = EXEC_MODE_STRING_TERMINATOR
          then [ParseWarning.execTerminatorAsCommand (commandString .positionalP)] else [])
        ++ (if command = POSITIONAL_ARG_STRING
          then [ParseWarning.execpCommandNotSubstituted] else [])
        ++ argWarnings true command args
        ++ (if POSITIONAL_ARG_STRING ∈ args then []
          else [ParseWarning.execpNoPositionalReplacements]))

/-- State of the top-level scan in `parse_from` (`args.rs:371-422`): the while
loop pulls one token at a time from the single argument iterator; a recognised
flag then consumes the command token and argument tokens (through the
terminator) from the same iterator. -/
inductive PState
  | top
  | needCmd (p : ParserExecMode)
  | inArgs (p : ParserExecMode) (command : String) (revArgs : List String)
deriving DecidableEq, Repr

/-- `args.rs:371-422` with `parsers::ExecMode::parse` (`args.rs:652-742`)
inlined as a token-at-a-time state machine.  The `Nat` argument is the
source's `idx` counter: it is incremented once per token examined by the
top-level `while let` loop (tokens consumed inside a spec do not touch it),
and on failure the error is wrapped `WithIndex(idx)`.
`take_while(|a| a != ";")` consumes the terminator without keeping it; an
exhausted iterator also ends the argument list. -/
def parseLoop : List String → PState → Nat → Except ArgParseError (List ExecMode × List ParseWarning)
  | [], .top, _ => .ok ([], [])
  | [], .needCmd p, idx =>
      .error (.withIndex idx (.invalidUsage (commandString p)
        "Expected a command file-path to execute."))
  | [], .inArgs p command revArgs, _ =>
      let sw := mkSpec p command revArgs.reverse
      .ok ([sw.1], sw.2)
  | t :: rest, .top, idx =>
      match visit t with
      | none => .error (.withIndex (idx + 1) (.unknownOption t))
      | some p => parseLoop rest (.needCmd p) (idx + 1)
  | t :: rest, .needCmd p, idx => parseLoop rest (.inArgs p t []) idx
  | t :: rest, .inArgs p command revArgs, idx =>
      if t = EXEC_MODE_STRING_TERMINATOR then
        let sw := mkSpec p command revArgs.reverse
        (parseLoop rest .top idx).map (fun r => (sw.1 :: r.1, sw.2 ++ r.2))
      else
        parseLoop rest (.inArgs p command (t :: revArgs)) idx

/-- `args.rs:371` — `parse_from`: parse a token list into `Options`. -/
def parseFrom (tokens : List String) : Except ArgParseError Options :=
  (parseLoop tokens .top 0).map (fun r => ⟨r.1⟩)

/-- The warnings `parse_from` would log on a successful parse. -/
def parseWarningsOf (tokens : List String) : List ParseWarning :=
  match parseLoop tokens .top 0 with
  | .ok r => r.2
  | .error _ => []

/-- Mirror of `parseLoop`'s control flow computing only where (and whether) the
scan fails: `some n` means parsing fails wrapped `WithIndex n`, where `n` is
the 1-based count of tokens examined by the top-level loop when the failure is
hit; `none` means the parse succeeds. -/
def failIndex : List String → PState → Nat → Option Nat
  | [], .top, _ => none
  | [], .needCmd _, idx => some idx
  | [], .inArgs _ _ _, _ => none
  | t :: rest, .top, idx =>
      match visit t with
      | none => some (idx + 1)
      | some p => failIndex rest (.needCmd p) (idx + 1)
  | t :: rest, .needCmd p, idx => failIndex rest (.inArgs p t []) idx
  | t :: rest, .inArgs p command revArgs, idx =>
      if t = EXEC_MODE_STRING_TERMINATOR then failIndex rest .top idx
      else failIndex rest (.inArgs p command (t :: revArgs)) idx

/-! ### Positional-argument zipping (`src/args.rs:155-263`) -/

/-- `args.rs:232-263` — `ExecModeArgIterator::next` in the `Positional`
variant (`ArgZippingIter`): literal arguments pass through; each placeholder
slot takes the next replacement; a slot found after the (fused) replacement
iterator is exhausted is skipped (`continue`) producing no argument at all. -/
def zipArgs : List (Option String) → List String → List String
  | [], _ => []
  | some s :: rest, pos => s :: zipArgs rest pos
  | none :: rest, [] => zipArgs rest []
  | none :: rest, p :: ps => p :: zipArgs rest ps

/-- `args.rs:162-172` — `ExecMode::into_process_info`: `Stdin` ignores the
replacement iterator; `Positional` zips it into the placeholder slots. -/
def intoProcessInfo : ExecMode → List String → String × List String
  | .stdin command args, _ => (command, args)
  | .positional command args, pos => (command, zipArgs args pos)

/-- Reference description of the zipping used to state C10: the k-th
replacement is written into the k-th placeholder slot, placeholder slots
beyond the replacements' exhaustion are left as `none`, and the final argument
list keeps exactly the filled entries (dropping leftover `none`s, shifting
later arguments left). -/
def replaceNones : List (Option String) → List String → List (Option String)
  | [], _ => []
  | some s :: rest, pos => some s :: replaceNones rest pos
  | none :: rest, [] => none :: replaceNones rest []
  | none :: rest, p :: ps => some p :: replaceNones rest ps

/-! ### Exec dispatcher (`src/exec.rs`) -/

/-- Disposition of a child's standard stream (`std::process::Stdio`):
`inherit` leaves the parent's stream in place (no redirection), `null` wires
the null device, `fromFd` wires the given descriptor. -/
inductive Stdio
  | inherit
  | null
  | fromFd (fd : Nat)
deriving DecidableEq, Repr

/-- What `exec.rs`'s `run_single`/`run_stdin` set up for one child before
`spawn`: the command, the fully substituted argument vector, the three
standard-stream dispositions, the fresh descriptors `dup`ed from the captured
data's descriptor for this child, and whether the file description wired to
(or referenced by) the child was re-seeked to offset 0 first. -/
structure SpawnPlan where
  command : String
  argv : List String
  stdin : Stdio
  stdout : Stdio
  stderr : Stdio
  dupFds : List Nat
  stdinSeekedToStart : Bool
deriving DecidableEq, Repr

/-- `exec.rs:20-27` — `proc_file`: the per-process descriptor path. -/
def procFile (pid fd : Nat) : String :=
  "/proc/" ++ toString pid ++ "/fd/" ++ toString fd

/-- `exec.rs:94-106` — `run_single`, with `run_stdin` (`exec.rs:49-87`)
inlined.  `dup` calls are modelled as allocating consecutive fresh descriptor
numbers starting at `nextFd`; the second component is the next free number.
- `Positional`: one `dup` (`nextFd`, kept open via `ManuallyDrop`); every
  placeholder becomes `proc_file` of that duplicate; stdin is `Stdio::null()`
  (the `None => Stdio::null()` arm of `run_stdin`); stdout/stderr inherit.
- `Stdin`: the duplicate (`nextFd`) is seeked to offset 0, then `run_stdin`
  `dup`s it once more (`exec.rs:70`) and wires that second duplicate —
  sharing the re-seeked file description — to the child's stdin. -/
def runSingle (nextFd pid : Nat) : ExecMode → SpawnPlan × Nat
  | .positional command args =>
      (⟨command, args.map (fun x => x.getD (procFile pid nextFd)),
        .null, .inherit, .inherit, [nextFd], false⟩,
       nextFd + 1)
  | .stdin command args =>
      (⟨command, args, .fromFd (nextFd + 1), .inherit, .inherit,
        [nextFd, nextFd + 1], true⟩,
       nextFd + 2)

/-- `exec.rs:113-116` — `spawn_from` over the raw spec list: one child per
spec, in order, threading the fresh-descriptor counter. -/
def spawnFromAux (pid : Nat) : Nat → List ExecMode → List SpawnPlan
  | _, [] => []
  | nextFd, m :: rest =>
      let pr := runSingle nextFd pid m
      pr.1 :: spawnFromAux pid pr.2 rest

/-- `exec.rs:113-116` — `spawn_from`: dispatch every parsed spec. -/
def spawnFrom (pid nextFd : Nat) (opt : Options) : List SpawnPlan :=
  spawnFromAux pid nextFd opt.exec

/-- How one spec's dispatch should look according to the (amended) spec:
stdout/stderr inherited; stdin mode keeps the literal argv, wires a duplicate
whose description was re-seeked to the start; positional mode substitutes the
per-process path of a duplicate for each placeholder and wires the null device
to stdin. -/
def planMatches (pid : Nat) (spec : ExecMode) (plan : SpawnPlan) : Prop :=
  plan.stdout = .inherit ∧ plan.stderr = .inherit ∧
  match spec with
  | .stdin c a =>
      plan.command = c ∧ plan.argv = a ∧ plan.stdinSeekedToStart = true ∧
      ∃ d, plan.stdin = .fromFd d ∧ d ∈ plan.dupFds
  | .positional c a =>
      plan.command = c ∧ plan.stdin = .null ∧
      ∃ d, d ∈ plan.dupFds ∧ plan.argv = a.map (fun x => x.getD (procFile pid d))

/-! ### Buffers and the two capture/replay strategies
(`src/buffers.rs`, `src/main.rs` `mod work`) -/

/-- `buffers.rs:352-389` — `<Vec<u8> as MutBuffer>::copy_from_slice`: write
`buf` at offset `st`, overwriting in place where the vector is long enough and
extending it otherwise.  (The source returns `buf.len()` as bytes consumed in
every branch.) -/
def vecCopyFromSlice (v : List Nat) (st : Nat) (buf : List Nat) : List Nat :=
  if st + buf.length ≤ v.length then
    v.take st ++ buf ++ v.drop (st + buf.length)
  else if st < v.length then
    v.take st ++ buf
  else
    v ++ buf

/-- `buffers.rs:97-114` — one `write` through `BufferWriter` (state: buffer,
write offset): the offset advances by the full chunk length. -/
def writerStep (s : List Nat × Nat) (c : List Nat) : List Nat × Nat :=
  (vecCopyFromSlice s.1 s.2 c, s.2 + c.length)

/-- `buffers.rs:85-95` / `io::copy`'s read loop over a `Buffer` reader (here
also the replay read loop over a memory file): starting at `pos`, repeatedly
read up to `rn` bytes (`rn` models the positive size of `io::copy`'s internal
buffer) until a read returns no bytes, concatenating everything read. -/
def readAllBuf (b : List Nat) (pos rn : Nat) : List Nat :=
  if _h : pos < b.length ∧ 0 < rn then
    ((b.drop pos).take rn) ++ readAllBuf b (pos + ((b.drop pos).take rn).length) rn
  else
    []
termination_by b.length - pos
decreasing_by
  simp only [List.length_take, List.length_drop]
  omega

/-- `src/memfile.rs` error taxonomy slice used by the work functions:
`io::ErrorKind` values that appear in `work::buffered` / `work::memfd`. -/
inductive IoErrorKind
  | brokenPipe
  | invalidInput
  | other
deriving DecidableEq, Repr

/-- An `std::io::Error`: a kind plus its message. -/
structure IoError where
  kind : IoErrorKind
  msg : String
deriving DecidableEq, Repr

/-- An `io::Error` wrapped by `eyre` context (`wrap_err`). -/
structure WorkError where
  ioe : IoError
  context : String
deriving DecidableEq, Repr

/-- `main.rs:203-206` and `main.rs:482-485` — the error value both strategies
build when bytes read ≠ bytes written: an `io::Error` of kind `BrokenPipe`
with the formatted byte counts, wrapped with the context
`"Writing failed: size mismatch"`. -/
def sizeMismatchError (read written : Nat) : WorkError :=
  ⟨⟨.brokenPipe, "read " ++ toString read ++ " bytes, but only wrote " ++ toString written⟩,
   "Writing failed: size mismatch"⟩

/-- The final byte-count comparison both strategies perform after the two copy
phases (`main.rs:203-207`, `main.rs:482-486`). -/
def sizeCheck (read written : Nat) : Except WorkError Unit :=
  if read ≠ written then .error (sizeMismatchError read written) else .ok ()

/-- `main.rs:177-209` — `work::buffered`: copy the whole of stdin (an
arbitrary chunking of the input) into a growable buffer starting empty
(`try_get_size` only pre-sizes the capacity, not the contents), freeze it,
replay `bytes[..read]` to stdout, then check the byte counts.  Replay starts
only after the capture fold has completed. -/
def bufferedWork (chunks : List (List Nat)) (rn : Nat) : Except WorkError (List Nat) :=
  let s := chunks.foldl writerStep ([], 0)
  let frozen := s.1
  let read := s.2
  let out := readAllBuf (frozen.take read) 0 rn
  (sizeCheck read out.length).map (fun _ => out)

/-- An anonymous memory file: its contents and its read/write cursor. -/
structure MemFile where
  data : List Nat
  pos : Nat
deriving DecidableEq, Repr

/-- `memfile.rs:396-423` — one `write` on the memory file at the cursor,
overwriting existing bytes and growing the file as needed (zero-filling any
gap beyond the end, which never arises in sequential use). -/
def MemFile.write (f : MemFile) (c : List Nat) : MemFile :=
  ⟨f.data.take f.pos ++ List.replicate (f.pos - f.data.length) 0 ++ c
     ++ f.data.drop (f.pos + c.length),
   f.pos + c.length⟩

/-- `ftruncate` / `File::set_len` (`main.rs:412-420`): truncate or zero-extend
to exactly `n` bytes; the cursor is untouched. -/
def MemFile.setLen (f : MemFile) (n : Nat) : MemFile :=
  ⟨f.data.take n ++ List.replicate (n - f.data.length) 0, f.pos⟩

/-- `io::copy(stdin, file)` — the capture fold of `work::memfd`. -/
def copyIn (f : MemFile) (chunks : List (List Nat)) : MemFile :=
  chunks.foldl MemFile.write f

/-- `main.rs:215-488` — `work::memfd`: create the memory file pre-allocated to
`presize` zero bytes (`create_memfile`: 0 when the input size cannot be
probed), copy all of stdin into it, reconcile the `io::copy` count against the
stream position (`read` becomes the position) and against the file length
(truncating the file to `read` when they differ, `main.rs:412-442`), seek back
to the start, replay the file to stdout, then check the byte counts. -/
def memfdWork (presize : Nat) (chunks : List (List Nat)) (rn : Nat) :
    Except WorkError (List Nat) :=
  let file0 : MemFile := ⟨List.replicate presize 0, 0⟩
  let file1 := copyIn file0 chunks
  let read := file1.pos
  let file2 := if file1.data.length ≠ read then file1.setLen read else file1
  let out := readAllBuf file2.data 0 rn
  (sizeCheck read out.length).map (fun _ => out)

/-! ### `fn main` (`src/main.rs:533-572`) -/

/-- The two fatal error classes `main` can report. -/
inductive MainError
  | parse (e : ArgParseError)
  | work (e : WorkError)
deriving DecidableEq, Repr

/-- `main.rs:533-572` — `fn main`: parse the arguments, run the selected
work strategy, close stdout, exit.  The parsed `Options` value is bound
(`let opt = ...`, `main.rs:539`) but never used again: `main` contains no call
to `exec::spawn_from`, `exec::spawn_from_sync` or `exec::run_single`, so the
list of children spawned by a run is `[]` whatever the options say.  The
result pairs the bytes written to stdout with that (always empty) list. -/
def mainRun (useMemfd : Bool) (presize : Nat) (argv : List String)
    (stdinChunks : List (List Nat)) (rn : Nat) :
    Except MainError (List Nat × List SpawnPlan) :=
  match parseFrom argv with
  | .error e => .error (.parse e)
  | .ok _opts =>
    match (if useMemfd then memfdWork presize stdinChunks rn
           else bufferedWork stdinChunks rn) with
    | .error e => .error (.work e)
    | .ok out => .ok (out, [])

/-! ### Descriptor wrapper (`src/memfile/fd.rs`) -/

/-- `fd.rs:17` — `NonNegativeI32::MASK` = `c_int::MIN as u32` = bit 31. -/
def NNI32_MASK : Nat := 2 ^ 31

/-- Two's-complement `as u32` cast of an `i32` value. -/
def i32ToU32 (v : Int) : Nat := (v % (2 ^ 32 : Int)).toNat

/-- `as i32` cast of a `u32` value. -/
def u32ToI32 (n : Nat) : Int := if n < 2 ^ 31 then (n : Int) else (n : Int) - 2 ^ 32

/-- Bitwise `u32` complement. -/
def u32Not (n : Nat) : Nat := 2 ^ 32 - 1 - n

/-- `fd.rs:20-29` — `NonNegativeI32::new`: reject negatives, otherwise store
`(from as u32) | MASK` (the `NonZeroU32` niche packing).  The stored `Nat` is
the packed representation. -/
def nonNegativeI32New (v : Int) : Option Nat :=
  if v < 0 then none else some (i32ToU32 v ||| NNI32_MASK)

/-- `fd.rs:38-41` — `NonNegativeI32::get`: `(packed & !MASK) as i32`. -/
def nonNegativeI32Get (r : Nat) : Int := u32ToI32 (r &&& u32Not NNI32_MASK)

/-- `fd.rs:81-94` — `impl TryFrom<i32> for NonNegativeI32`: succeed exactly
when `NonZeroU32::try_from((!from as u32) & MASK)` succeeds, i.e. when the
complement's bit 31 is set, then pack with `new_unchecked`. -/
def nonNegativeI32TryFrom (v : Int) : Option Nat :=
  if u32Not (i32ToU32 v) &&& NNI32_MASK = 0 then none
  else some (i32ToU32 v ||| NNI32_MASK)

/-- `fd.rs:131-134` — `RawFileDescriptor::try_new`, delegating to
`NonNegativeI32::new`; `RawFileDescriptor::get` is `NonNegativeI32::get`. -/
def rawFileDescriptorTryNew (fd : Int) : Option Nat := nonNegativeI32New fd

deriving instance DecidableEq for Except

/-! ## Theorems -/

/-! ### Capture/replay helpers -/

theorem vecCopyFromSlice_at_end (v c : List Nat) :
    vecCopyFromSlice v v.length c = v ++ c := by
  unfold vecCopyFromSlice
  by_cases h : v.length + c.length ≤ v.length
  · have hc : c = [] := List.eq_nil_of_length_eq_zero (by omega)
    subst hc
    rw [if_pos h]
    simp
  · rw [if_neg h, if_neg (lt_irrefl _)]

theorem capture_fold : ∀ (chunks : List (List Nat)) (v : List Nat),
    chunks.foldl writerStep (v, v.length) =
      (v ++ chunks.flatten, (v ++ chunks.flatten).length) := by
  intro chunks
  induction chunks with
  | nil => intro v; simp
  | cons c rest ih =>
    intro v
    have hw : writerStep (v, v.length) c = (v ++ c, (v ++ c).length) := by
      simp [writerStep, vecCopyFromSlice_at_end]
    simp only [List.foldl_cons, hw, ih (v ++ c), List.flatten_cons, List.append_assoc]

theorem readAllBuf_eq_drop_fuel :
    ∀ (fuel : Nat) (b : List Nat) (pos rn : Nat), 0 < rn → b.length - pos ≤ fuel →
      readAllBuf b pos rn = b.drop pos := by
  intro fuel
  induction fuel with
  | zero =>
    intro b pos rn hrn hle
    rw [readAllBuf, dif_neg (by omega)]
    exact (List.drop_eq_nil_of_le (by omega)).symm
  | succ n ih =>
    intro b pos rn hrn hle
    rw [readAllBuf]
    by_cases hp : pos < b.length
    · rw [dif_pos ⟨hp, hrn⟩]
      have hlen : ((b.drop pos).take rn).length = min rn (b.length - pos) := by
        simp only [List.length_take, List.length_drop]
      rw [ih b (pos + ((b.drop pos).take rn).length) rn hrn (by rw [hlen]; omega), hlen]
      by_cases hr : rn ≤ b.length - pos
      · rw [Nat.min_eq_left hr, ← List.drop_drop rn pos b, List.take_append_drop]
      · have h1 : (b.drop pos).take rn = b.drop pos :=
          List.take_of_length_le (by simp only [List.length_drop]; omega)
        rw [Nat.min_eq_right (by omega), h1,
          List.drop_eq_nil_of_le (show b.length ≤ pos + (b.length - pos) by omega),
          List.append_nil]
    · rw [dif_neg (by omega)]
      exact (List.drop_eq_nil_of_le (by omega)).symm

theorem readAllBuf_eq_drop (b : List Nat) (pos rn : Nat) (hrn : 0 < rn) :
    readAllBuf b pos rn = b.drop pos :=
  readAllBuf_eq_drop_fuel (b.length - pos) b pos rn hrn (le_refl _)

theorem sizeCheck_eq_ok (n : Nat) : sizeCheck n n = .ok () := by
  simp [sizeCheck]

theorem bufferedWork_ok (chunks : List (List Nat)) (rn : Nat) (hrn : 0 < rn) :
    bufferedWork chunks rn = .ok chunks.flatten := by
  have hc : chunks.foldl writerStep ([], 0) = (chunks.flatten, chunks.flatten.length) := by
    simpa using capture_fold chunks []
  simp only [bufferedWork, hc]
  rw [List.take_length, readAllBuf_eq_drop _ _ _ hrn, List.drop_zero, sizeCheck_eq_ok]
  rfl

theorem memWrite_spec (D : List Nat) (p : Nat) (c : List Nat) (hp : p ≤ D.length) :
    MemFile.write ⟨D, p⟩ c = ⟨D.take p ++ c ++ D.drop (p + c.length), p + c.length⟩ := by
  simp only [MemFile.write, Nat.sub_eq_zero_of_le hp, List.replicate_zero,
    List.append_nil, List.append_assoc]

theorem copyIn_spec : ∀ (chunks : List (List Nat)) (D : List Nat) (p : Nat), p ≤ D.length →
    copyIn ⟨D, p⟩ chunks =
      ⟨D.take p ++ chunks.flatten ++ D.drop (p + chunks.flatten.length),
        p + chunks.flatten.length⟩ := by
  intro chunks
  induction chunks with
  | nil =>
    intro D p hp
    simp only [copyIn, List.foldl_nil, List.flatten_nil, List.append_nil, List.length_nil,
      Nat.add_zero, List.take_append_drop]
  | cons c rest ih =>
    intro D p hp
    have hstep : copyIn ⟨D, p⟩ (c :: rest) = copyIn (MemFile.write ⟨D, p⟩ c) rest := rfl
    rw [hstep, memWrite_spec D p c hp]
    have hA : (D.take p ++ c).length = p + c.length := by
      simp only [List.length_append, List.length_take]
      omega
    have hlen : p + c.length ≤ (D.take p ++ c ++ D.drop (p + c.length)).length := by
      simp only [List.length_append, List.length_take, List.length_drop]
      omega
    rw [ih _ _ hlen]
    have htake : (D.take p ++ c ++ D.drop (p + c.length)).take (p + c.length) =
        D.take p ++ c := List.take_left' hA
    have hdrop : (D.take p ++ c ++ D.drop (p + c.length)).drop
          (p + c.length + rest.flatten.length) =
        D.drop (p + c.length + rest.flatten.length) := by
      rw [← List.drop_drop rest.flatten.length (p + c.length)
            (D.take p ++ c ++ D.drop (p + c.length)),
        List.drop_left' hA, List.drop_drop]
    rw [htake, hdrop]
    simp only [List.flatten_cons, List.length_append, List.append_assoc, Nat.add_assoc]

theorem memfdWork_ok (presize : Nat) (chunks : List (List Nat)) (rn : Nat) (hrn : 0 < rn) :
    memfdWork presize chunks rn = .ok chunks.flatten := by
  have hcap : copyIn ⟨List.replicate presize 0, 0⟩ chunks =
      ⟨chunks.flatten ++ (List.replicate presize (0 : Nat)).drop chunks.flatten.length,
        chunks.flatten.length⟩ := by
    simpa using copyIn_spec chunks (List.replicate presize 0) 0 (Nat.zero_le _)
  simp only [memfdWork, hcap]
  by_cases hsz : presize ≤ chunks.flatten.length
  · have hdrop : (List.replicate presize (0 : Nat)).drop chunks.flatten.length = [] :=
      List.drop_eq_nil_of_le (by simp only [List.length_replicate]; omega)
    rw [hdrop, List.append_nil, if_neg (by simp)]
    rw [readAllBuf_eq_drop _ _ _ hrn, List.drop_zero, sizeCheck_eq_ok]
    rfl
  · have hlen :
        (chunks.flatten ++ (List.replicate presize (0 : Nat)).drop chunks.flatten.length).length
          = presize := by
      simp only [List.length_append, List.length_drop, List.length_replicate]
      omega
    rw [if_pos (by rw [hlen]; omega)]
    have hset : MemFile.setLen
        ⟨chunks.flatten ++ (List.replicate presize (0 : Nat)).drop chunks.flatten.length,
          chunks.flatten.length⟩ chunks.flatten.length =
        ⟨chunks.flatten, chunks.flatten.length⟩ := by
      simp only [MemFile.setLen, hlen]
      rw [show chunks.flatten.length - presize = 0 from by omega, List.replicate_zero,
        List.append_nil, List.take_left' rfl]
    rw [hset]
    rw [readAllBuf_eq_drop _ _ _ hrn, List.drop_zero, sizeCheck_eq_ok]
    rfl

/-! ### Claim C1 -/

/-- C1: for every byte sequence (presented as the arbitrary chunking
`chunks` in which the reads deliver it, including the empty sequence), running
the capture/replay core writes back exactly the input bytes, under both the
heap (`work::buffered`) and the memory-file (`work::memfd`) strategy — the
latter for every preallocation size `presize` the size probe may have
produced.  Both functions are two-phase by construction: the replay read loop
runs on the buffer produced by the completed capture fold, so the replay
begins only after the whole input has been captured.  `rn` is the (positive)
size of `io::copy`'s internal read buffer. -/
theorem c1_roundtrip_identity (chunks : List (List Nat)) (presize rn : Nat) (hrn : 0 < rn) :
    bufferedWork chunks rn = .ok chunks.flatten ∧
    memfdWork presize chunks rn = .ok chunks.flatten :=
  ⟨bufferedWork_ok chunks rn hrn, memfdWork_ok presize chunks rn hrn⟩

theorem c1_roundtrip_identity_witness :
    0 < 3 ∧ (bufferedWork [[1, 2], [], [3]] 3 = .ok [1, 2, 3] ∧
      memfdWork 7 [[1, 2], [], [3]] 3 = .ok [1, 2, 3]) :=
  ⟨by decide, c1_roundtrip_identity [[1, 2], [], [3]] 7 3 (by decide)⟩

/-! ### Claim C2 -/

/-- C2 (code bug): the program parses `-exec cat` into one stdin-mode spec,
completes capture and replay — and then spawns no child at all: `fn main`
(`main.rs:533-572`) binds the parsed `Options` but contains no call into
`exec::spawn_from` / `spawn_from_sync` / `run_single` (they are dead code), so
the spawned-children component of the run's result is `[]` under both
strategies, contradicting the claimed dispatch of one child per spec. -/
theorem c2_main_never_dispatches_exec :
    parseFrom ["-exec", "cat"] = .ok ⟨[ExecMode.stdin "cat" []]⟩ ∧
    mainRun false 0 ["-exec", "cat"] [[104, 105]] 8 = .ok ([104, 105], []) ∧
    mainRun true 0 ["-exec", "cat"] [[104, 105]] 8 = .ok ([104, 105], []) := by
  have hp : parseFrom ["-exec", "cat"] = .ok ⟨[ExecMode.stdin "cat" []]⟩ := by decide
  have hb : bufferedWork [[104, 105]] 8 = .ok [104, 105] :=
    bufferedWork_ok [[104, 105]] 8 (by decide)
  have hm : memfdWork 0 [[104, 105]] 8 = .ok [104, 105] :=
    memfdWork_ok 0 [[104, 105]] 8 (by decide)
  refine ⟨hp, ?_, ?_⟩
  · simp only [mainRun, hp, Bool.false_eq_true, if_false, hb]
  · simp only [mainRun, hp, if_true, hm]

/-! ### Claim C3 -/

/-- C3 counterexample: at a byte-count mismatch (2 bytes read, 1 written) the
code does fail, but the error it builds is an `io::Error` of kind
`BrokenPipe` — the ordinary I/O error kind used for pipe write failures — with
the mismatch described only in the message text and the `eyre` context, not a
distinct `SizeMismatch` error kind.  No `SizeMismatch` type exists anywhere in
the source, so the claim's "distinct, diagnosable error kind, not conflated
with an I/O error" is false. -/
theorem c3_size_mismatch_kind_counterexample :
    sizeCheck 2 1 = .error (sizeMismatchError 2 1) ∧
    (sizeMismatchError 2 1).ioe.kind = IoErrorKind.brokenPipe ∧
    (sizeMismatchError 2 1).ioe.msg = "read 2 bytes, but only wrote 1" := by decide

/-- C3 amended: in both strategies, if after both copy phases the bytes
copied in differ from the bytes written out, the run fails — with an
`io::Error` of kind `BrokenPipe` carrying the message
`read {read} bytes, but only wrote {written}`, wrapped with the context
`Writing failed: size mismatch` (diagnosable by its message and context, not
by a dedicated error kind); if the counts agree, the check passes. -/
theorem c3_size_mismatch_amended (read written : Nat) :
    (read ≠ written → sizeCheck read written =
      .error ⟨⟨.brokenPipe,
        "read " ++ toString read ++ " bytes, but only wrote " ++ toString written⟩,
        "Writing failed: size mismatch"⟩) ∧
    (read = written → sizeCheck read written = .ok ()) := by
  constructor
  · intro h
    simp [sizeCheck, sizeMismatchError, h]
  · intro h
    subst h
    exact sizeCheck_eq_ok read

theorem c3_size_mismatch_amended_witness :
    sizeCheck 2 1 = .error ⟨⟨.brokenPipe,
      "read " ++ toString 2 ++ " bytes, but only wrote " ++ toString 1⟩,
      "Writing failed: size mismatch"⟩ :=
  (c3_size_mismatch_amended 2 1).1 (by decide)

/-! ### Claim C10 -/

theorem zipArgs_eq_replaceNones : ∀ (args : List (Option String)) (pos : List String),
    zipArgs args pos = (replaceNones args pos).filterMap id := by
  intro args
  induction args with
  | nil => intro pos; simp [zipArgs, replaceNones]
  | cons a rest ih =>
    intro pos
    cases a with
    | some s => simp [zipArgs, replaceNones, ih]
    | none =>
      cases pos with
      | nil => simp [zipArgs, replaceNones, ih]
      | cons p ps => simp [zipArgs, replaceNones, ih]

/-- C10: converting a positional spec to process arguments zips the
replacement values into the placeholder slots positionally: the k-th
replacement fills the k-th slot (`replaceNones`), and — as `filterMap id`
makes explicit — a slot beyond the replacements' exhaustion is left unfilled
and contributes no argument at all, the following arguments shifting left
(never an empty string, never an error).  The concrete instance shows one
replacement and two slots: the second slot disappears and `"b"`, `"c"` shift
left. -/
theorem c10_positional_shift_left :
    (∀ (command : String) (args : List (Option String)) (pos : List String),
      intoProcessInfo (.positional command args) pos =
        (command, (replaceNones args pos).filterMap id)) ∧
    intoProcessInfo (.positional "cmd" [some "a", none, some "b", none, some "c"]) ["X"] =
      ("cmd", ["a", "X", "b", "c"]) := by
  constructor
  · intro command args pos
    simp [intoProcessInfo, zipArgs_eq_replaceNones]
  · decide

/-! ### Parser helper lemmas -/

theorem parseLoop_inArgs_noTerm :
    ∀ (args : List String) (p : ParserExecMode) (c : String) (ra : List String) (idx : Nat),
      EXEC_MODE_STRING_TERMINATOR ∉ args →
      parseLoop args (.inArgs p c ra) idx =
        .ok ([(mkSpec p c (ra.reverse ++ args)).1], (mkSpec p c (ra.reverse ++ args)).2) := by
  intro args
  induction args with
  | nil =>
    intro p c ra idx h
    simp [parseLoop]
  | cons t rest ih =>
    intro p c ra idx h
    have ht : ¬ (t = EXEC_MODE_STRING_TERMINATOR) := by
      intro he
      exact h (he ▸ List.mem_cons_self t rest)
    have hrest : EXEC_MODE_STRING_TERMINATOR ∉ rest := fun hm => h (List.mem_cons_of_mem t hm)
    have hstep : parseLoop (t :: rest) (.inArgs p c ra) idx =
        parseLoop rest (.inArgs p c (t :: ra)) idx := by
      simp [parseLoop, ht]
    rw [hstep, ih p c (t :: ra) idx hrest]
    simp [List.reverse_cons, List.append_assoc]

theorem except_map_isOk {ε α β : Type} (x : Except ε α) (f : α → β) :
    (x.map f).isOk = x.isOk := by
  cases x <;> rfl

theorem except_map_error {ε α β : Type} (x : Except ε α) (f : α → β) (e : ε) :
    x.map f = .error e ↔ x = .error e := by
  cases x <;> simp [Except.map]

/-! ### Claim C4 -/

/-- C4: parsing the token sequence `-exec cmd a b c ;` yields exactly one
stdin-mode spec with command `cmd` and arguments `["a","b","c"]` in order,
with no warnings; and, for every continuation `rest` of the token stream, the
terminator `;` is consumed (never appearing as an argument) and parsing
resumes at the top level on `rest`, the spec being prepended to whatever
`rest` parses to (with the top-level token counter advanced by exactly the one
`-exec` token). -/
theorem c4_parse_exec_stdin_example :
    parseFrom ["-exec", "cmd", "a", "b", "c", ";"] =
      .ok ⟨[ExecMode.stdin "cmd" ["a", "b", "c"]]⟩ ∧
    parseWarningsOf ["-exec", "cmd", "a", "b", "c", ";"] = [] ∧
    (∀ (rest : List String) (idx : Nat),
      parseLoop (["-exec", "cmd", "a", "b", "c", ";"] ++ rest) .top idx =
        (parseLoop rest .top (idx + 1)).map
          (fun r => (ExecMode.stdin "cmd" ["a", "b", "c"] :: r.1, r.2))) := by
  refine ⟨by decide, by decide, ?_⟩
  intro rest idx
  rfl

/-! ### Claim C5 -/

/-- C5: `-exec{} cmd2 d {} e` parses to exactly one positional-mode spec with
command `cmd2` and argument list `[some "d", placeholder, some "e"]`; and in
general (for any argument tokens containing no terminator) every argument
token equal to `{}` becomes a placeholder slot exactly in `-exec{}` mode,
while `-exec` (stdin) mode keeps the literal `{}` unchanged as an ordinary
argument. -/
theorem c5_parse_positional_placeholders :
    parseFrom ["-exec\x7b\x7d", "cmd2", "d", "\x7b\x7d", "e"] =
      .ok ⟨[ExecMode.positional "cmd2" [some "d", none, some "e"]]⟩ ∧
    (∀ (cmd : String) (args : List String), EXEC_MODE_STRING_TERMINATOR ∉ args →
      parseFrom ("-exec\x7b\x7d" :: cmd :: args) =
        .ok ⟨[ExecMode.positional cmd
          (args.map (fun x => if x = POSITIONAL_ARG_STRING then none else some x))]⟩ ∧
      parseFrom ("-exec" :: cmd :: args) = .ok ⟨[ExecMode.stdin cmd args]⟩) := by
  refine ⟨by decide, ?_⟩
  intro cmd args h
  constructor
  · show (parseLoop ("-exec\x7b\x7d" :: cmd :: args) .top 0).map (fun r => (⟨r.1⟩ : Options)) = _
    rw [show parseLoop ("-exec\x7b\x7d" :: cmd :: args) .top 0 =
          parseLoop args (.inArgs .positionalP cmd []) 1 from rfl,
      parseLoop_inArgs_noTerm args .positionalP cmd [] 1 h]
    rfl
  · show (parseLoop ("-exec" :: cmd :: args) .top 0).map (fun r => (⟨r.1⟩ : Options)) = _
    rw [show parseLoop ("-exec" :: cmd :: args) .top 0 =
          parseLoop args (.inArgs .stdinP cmd []) 1 from rfl,
      parseLoop_inArgs_noTerm args .stdinP cmd [] 1 h]
    rfl

theorem c5_parse_positional_placeholders_witness :
    EXEC_MODE_STRING_TERMINATOR ∉ ["d", "\x7b\x7d", "e"] ∧
    (parseFrom ["-exec\x7b\x7d", "cmd2", "d", "\x7b\x7d", "e"] =
        .ok ⟨[ExecMode.positional "cmd2" [some "d", none, some "e"]]⟩ ∧
      (parseFrom ("-exec\x7b\x7d" :: "cmd2" :: ["d", "\x7b\x7d", "e"]) =
          .ok ⟨[ExecMode.positional "cmd2"
            (["d", "\x7b\x7d", "e"].map
              (fun x => if x = POSITIONAL_ARG_STRING then none else some x))]⟩ ∧
        parseFrom ("-exec" :: "cmd2" :: ["d", "\x7b\x7d", "e"]) =
          .ok ⟨[ExecMode.stdin "cmd2" ["d", "\x7b\x7d", "e"]]⟩)) :=
  ⟨by decide,
    (c5_parse_positional_placeholders).1,
    (c5_parse_positional_placeholders).2 "cmd2" ["d", "\x7b\x7d", "e"] (by decide)⟩

/-! ### Claim C6 -/

/-- C6 counterexample: on the token list `-exec c ; x` the parse fails on the
unknown top-level token `x`, which is the 4th token (1-based index 4), but the
error is annotated `WithIndex 2`: the counter counts only the tokens examined
by the top-level loop (`-exec` and `x`), not positions in the full token list,
so "the 1-based index of the offending token" is false as stated. -/
theorem c6_index_counterexample :
    parseFrom ["-exec", "c", ";", "x"] = .error (.withIndex 2 (.unknownOption "x")) ∧
    ["-exec", "c", ";", "x"].getD 3 "" = "x" ∧
    (2 : Nat) ≠ 4 := by decide

theorem parseLoop_failIndex : ∀ (tokens : List String) (st : PState) (idx : Nat),
    ((parseLoop tokens st idx).isOk ↔ failIndex tokens st idx = none) ∧
    (∀ e, parseLoop tokens st idx = .error e →
      ∃ n, failIndex tokens st idx = some n ∧
        ((∃ t, e = .withIndex n (.unknownOption t) ∧ visit t = none) ∨
         (∃ p, e = .withIndex n (.invalidUsage (commandString p)
            "Expected a command file-path to execute.")))) := by
  intro tokens
  induction tokens with
  | nil =>
    intro st idx
    cases st with
    | top =>
      refine ⟨by simp [parseLoop, failIndex, Except.isOk, Except.toBool], ?_⟩
      intro e he
      simp [parseLoop] at he
    | needCmd p =>
      refine ⟨by simp [parseLoop, failIndex, Except.isOk, Except.toBool], ?_⟩
      intro e he
      have he2 : e = .withIndex idx (.invalidUsage (commandString p)
          "Expected a command file-path to execute.") := by
        simpa [parseLoop] using he.symm
      exact ⟨idx, rfl, Or.inr ⟨p, he2⟩⟩
    | inArgs p c ra =>
      refine ⟨by simp [parseLoop, failIndex, Except.isOk, Except.toBool], ?_⟩
      intro e he
      simp [parseLoop] at he
  | cons t rest ih =>
    intro st idx
    cases st with
    | top =>
      cases hv : visit t with
      | none =>
        refine ⟨by simp [parseLoop, failIndex, hv, Except.isOk, Except.toBool], ?_⟩
        intro e he
        have he2 : e = .withIndex (idx + 1) (.unknownOption t) := by
          simpa [parseLoop, hv] using he.symm
        exact ⟨idx + 1, by simp [failIndex, hv], Or.inl ⟨t, he2, hv⟩⟩
      | some p =>
        have h1 : parseLoop (t :: rest) .top idx = parseLoop rest (.needCmd p) (idx + 1) := by
          simp [parseLoop, hv]
        have h2 : failIndex (t :: rest) .top idx = failIndex rest (.needCmd p) (idx + 1) := by
          simp [failIndex, hv]
        rw [h1, h2]
        exact ih (.needCmd p) (idx + 1)
    | needCmd p =>
      have h1 : parseLoop (t :: rest) (.needCmd p) idx =
          parseLoop rest (.inArgs p t []) idx := rfl
      have h2 : failIndex (t :: rest) (.needCmd p) idx =
          failIndex rest (.inArgs p t []) idx := rfl
      rw [h1, h2]
      exact ih (.inArgs p t []) idx
    | inArgs p c ra =>
      by_cases ht : t = EXEC_MODE_STRING_TERMINATOR
      · have h1 : parseLoop (t :: rest) (.inArgs p c ra) idx =
            (parseLoop rest .top idx).map
              (fun r => ((mkSpec p c ra.reverse).1 :: r.1, (mkSpec p c ra.reverse).2 ++ r.2)) := by
          simp [parseLoop, ht]
        have h2 : failIndex (t :: rest) (.inArgs p c ra) idx = failIndex rest .top idx := by
          simp [failIndex, ht]
        refine ⟨?_, ?_⟩
        · rw [h1, h2, except_map_isOk]
          exact (ih .top idx).1
        · intro e he
          rw [h1, except_map_error] at he
          rw [h2]
          exact (ih .top idx).2 e he
      · have h1 : parseLoop (t :: rest) (.inArgs p c ra) idx =
            parseLoop rest (.inArgs p c (t :: ra)) idx := by
          simp [parseLoop, ht]
        have h2 : failIndex (t :: rest) (.inArgs p c ra) idx =
            failIndex rest (.inArgs p c (t :: ra)) idx := by
          simp [failIndex, ht]
        rw [h1, h2]
        exact ih (.inArgs p c (t :: ra)) idx

/-- C6 amended: argument parsing fails (returns no `Options`) exactly when the
scan hits (a) a top-level token that is neither `-exec` nor `-exec{}` —
producing `UnknownOption(token)` — or (b) an `-exec`/`-exec{}` with no
following command token — producing `InvalidUsage` for that flag
(`failIndex _ .top 0 = none` states precisely that neither occurs); and every
error is annotated `WithIndex n` where `n` is the 1-based count of tokens
examined by the top-level loop at the failure (as `failIndex` computes) — not,
in general, the offending token's 1-based position in the full token list. -/
theorem c6_parse_failure_amended (tokens : List String) :
    ((parseFrom tokens).isOk ↔ failIndex tokens .top 0 = none) ∧
    (∀ e, parseFrom tokens = .error e →
      ∃ n, failIndex tokens .top 0 = some n ∧
        ((∃ t, e = .withIndex n (.unknownOption t) ∧ visit t = none) ∨
         (∃ p, e = .withIndex n (.invalidUsage (commandString p)
            "Expected a command file-path to execute.")))) := by
  constructor
  · rw [show (parseFrom tokens).isOk = (parseLoop tokens .top 0).isOk from
      except_map_isOk (parseLoop tokens .top 0) (fun r => (⟨r.1⟩ : Options))]
    exact (parseLoop_failIndex tokens .top 0).1
  · intro e he
    have he2 : parseLoop tokens .top 0 = .error e :=
      (except_map_error (parseLoop tokens .top 0) (fun r => (⟨r.1⟩ : Options)) e).mp he
    exact (parseLoop_failIndex tokens .top 0).2 e he2

theorem c6_parse_failure_amended_witness :
    ∃ n, failIndex ["-exec", "c", ";", "x"] .top 0 = some n ∧
      ((∃ t, ArgParseError.withIndex 2 (ArgParseError.unknownOption "x") =
          .withIndex n (.unknownOption t) ∧ visit t = none) ∨
       (∃ p, ArgParseError.withIndex 2 (ArgParseError.unknownOption "x") =
          .withIndex n (.invalidUsage (commandString p)
            "Expected a command file-path to execute."))) :=
  (c6_parse_failure_amended ["-exec", "c", ";", "x"]).2
    (ArgParseError.withIndex 2 (ArgParseError.unknownOption "x")) (by decide)

/-! ### Claim C7 -/

/-- C7: an `-exec{}` invocation whose arguments contain no `{}` still parses
successfully into a positional-mode spec with all-literal (`some`) arguments —
the parser only logs the `execp_no_positional_replacements` warning — and the
dispatcher still dispatches that spec exactly as any other: `spawn_from` turns
it into one spawn with the literal arguments unchanged (no substitution
happens, since substitution only applies to placeholder slots). -/
theorem c7_no_placeholder_warning_only (cmd : String) (args : List String)
    (pid nextFd : Nat) (hterm : EXEC_MODE_STRING_TERMINATOR ∉ args)
    (hph : POSITIONAL_ARG_STRING ∉ args) :
    parseFrom ("-exec\x7b\x7d" :: cmd :: args) =
      .ok ⟨[ExecMode.positional cmd (args.map some)]⟩ ∧
    ParseWarning.execpNoPositionalReplacements ∈
      parseWarningsOf ("-exec\x7b\x7d" :: cmd :: args) ∧
    spawnFrom pid nextFd ⟨[ExecMode.positional cmd (args.map some)]⟩ =
      [⟨cmd, args, .null, .inherit, .inherit, [nextFd], false⟩] := by
  have hmap : args.map (fun x => if x = POSITIONAL_ARG_STRING then none else some x) =
      args.map some := by
    apply List.map_congr_left
    intro x hx
    rw [if_neg]
    intro he
    exact hph (he ▸ hx)
  refine ⟨?_, ?_, ?_⟩
  · have h1 := ((c5_parse_positional_placeholders).2 cmd args hterm).1
    rw [hmap] at h1
    exact h1
  · have hw : parseWarningsOf ("-exec\x7b\x7d" :: cmd :: args) =
        (mkSpec .positionalP cmd args).2 := by
      show (match parseLoop ("-exec\x7b\x7d" :: cmd :: args) .top 0 with
            | .ok r => r.2
            | .error _ => ([] : List ParseWarning)) = _
      rw [show parseLoop ("-exec\x7b\x7d" :: cmd :: args) .top 0 =
            parseLoop args (.inArgs .positionalP cmd []) 1 from rfl,
        parseLoop_inArgs_noTerm args .positionalP cmd [] 1 hterm]
      rfl
    rw [hw]
    simp [mkSpec, hph]
  · have hargs : (args.map some).map
        (fun x => x.getD (procFile pid nextFd)) = args := by
      rw [List.map_map]
      have hco : ((fun x : Option String => x.getD (procFile pid nextFd)) ∘ some) = id := by
        funext x
        simp
      rw [hco, List.map_id]
    simp [spawnFrom, spawnFromAux, runSingle, hargs]

theorem c7_no_placeholder_warning_only_witness :
    (EXEC_MODE_STRING_TERMINATOR ∉ ["d", "e"] ∧ POSITIONAL_ARG_STRING ∉ ["d", "e"]) ∧
    (parseFrom ("-exec\x7b\x7d" :: "cmd" :: ["d", "e"]) =
        .ok ⟨[ExecMode.positional "cmd" (["d", "e"].map some)]⟩ ∧
      ParseWarning.execpNoPositionalReplacements ∈
        parseWarningsOf ("-exec\x7b\x7d" :: "cmd" :: ["d", "e"]) ∧
      spawnFrom 9 4 ⟨[ExecMode.positional "cmd" (["d", "e"].map some)]⟩ =
        [⟨"cmd", ["d", "e"], .null, .inherit, .inherit, [4], false⟩]) :=
  ⟨⟨by decide, by decide⟩,
    c7_no_placeholder_warning_only "cmd" ["d", "e"] 9 4 (by decide) (by decide)⟩

/-! ### Claim C8 -/

/-- C8 counterexample: for a dispatched positional-mode spec the child's
standard input is `Stdio::null()` — run_stdin's `None => Stdio::null()` arm
(`exec.rs:70`) — i.e. redirected to the null device, not left un-redirected
(`Stdio.inherit`), contradicting the claim's "the child's standard input is
not redirected". -/
theorem c8_positional_stdin_counterexample :
    (runSingle 5 42 (.positional "cmd" [some "a", none])).1.stdin = Stdio.null ∧
    Stdio.null ≠ Stdio.inherit := by decide

theorem runSingle_next_gt (nextFd pid : Nat) (m : ExecMode) :
    nextFd < (runSingle nextFd pid m).2 := by
  cases m <;> simp [runSingle]

theorem runSingle_dups_range (nextFd pid : Nat) (m : ExecMode) :
    ∀ d ∈ (runSingle nextFd pid m).1.dupFds, nextFd ≤ d ∧ d < (runSingle nextFd pid m).2 := by
  intro d hd
  cases m with
  | stdin c a =>
    simp only [runSingle, List.mem_cons, List.mem_singleton] at hd
    rcases hd with rfl | rfl | h
    · simp [runSingle]
    · simp [runSingle]
    · simp at h
  | positional c a =>
    simp only [runSingle, List.mem_singleton] at hd
    subst hd
    simp [runSingle]

theorem spawnFromAux_lb : ∀ (specs : List ExecMode) (pid nf : Nat) (plan : SpawnPlan),
    plan ∈ spawnFromAux pid nf specs → ∀ d ∈ plan.dupFds, nf ≤ d := by
  intro specs
  induction specs with
  | nil =>
    intro pid nf plan h
    simp [spawnFromAux] at h
  | cons m rest ih =>
    intro pid nf plan h d hd
    simp only [spawnFromAux, List.mem_cons] at h
    rcases h with h | h
    · subst h
      exact ((runSingle_dups_range nf pid m) d hd).1
    · have h1 := ih pid (runSingle nf pid m).2 plan h d hd
      have h2 := runSingle_next_gt nf pid m
      omega

theorem spawnFromAux_matches : ∀ (specs : List ExecMode) (pid nf : Nat),
    List.Forall₂ (planMatches pid) specs (spawnFromAux pid nf specs) := by
  intro specs
  induction specs with
  | nil =>
    intro pid nf
    exact List.Forall₂.nil
  | cons m rest ih =>
    intro pid nf
    refine List.Forall₂.cons ?_ (ih pid (runSingle nf pid m).2)
    cases m with
    | stdin c a =>
      exact ⟨rfl, rfl, rfl, rfl, rfl, ⟨nf + 1, rfl, by simp [runSingle]⟩⟩
    | positional c a =>
      exact ⟨rfl, rfl, rfl, rfl, ⟨nf, by simp [runSingle], rfl⟩⟩

theorem spawnFromAux_pairwise : ∀ (specs : List ExecMode) (pid nf : Nat),
    List.Pairwise (fun p q => ∀ d ∈ p.dupFds, ∀ e ∈ q.dupFds, d < e)
      (spawnFromAux pid nf specs) := by
  intro specs
  induction specs with
  | nil =>
    intro pid nf
    exact List.Pairwise.nil
  | cons m rest ih =>
    intro pid nf
    refine List.pairwise_cons.mpr ⟨?_, ih pid (runSingle nf pid m).2⟩
    intro q hq d hd e he
    have h1 := ((runSingle_dups_range nf pid m) d hd).2
    have h2 := spawnFromAux_lb rest pid (runSingle nf pid m).2 q hq e he
    omega

/-- C8 amended: dispatching the parsed specs (`spawn_from`) produces one spawn
per spec, in order (`Forall₂`): each child first gets fresh duplicates of the
captured data's descriptor — all strictly above any existing descriptor
`base`, so the original stays with the parent, and disjoint between children —
then, per `planMatches`: in stdin mode the child's standard input is wired to
a duplicate whose file description was re-seeked to offset 0 and the argument
list is passed verbatim; in positional mode every placeholder slot is replaced
by the `/proc/<pid>/fd/<n>` path of the child's duplicate and the child's
standard input is redirected to the null device (not inherited — this is the
one correction to the claim); in both modes the child inherits the parent's
standard output and standard error. -/
theorem c8_dispatch_amended (pid base nextFd : Nat) (o : Options) (hb : base < nextFd) :
    List.Forall₂ (planMatches pid) o.exec (spawnFrom pid nextFd o) ∧
    (∀ plan ∈ spawnFrom pid nextFd o, ∀ d ∈ plan.dupFds, base < d) ∧
    List.Pairwise (fun p q => ∀ d ∈ p.dupFds, ∀ e ∈ q.dupFds, d < e)
      (spawnFrom pid nextFd o) := by
  refine ⟨spawnFromAux_matches o.exec pid nextFd, ?_, spawnFromAux_pairwise o.exec pid nextFd⟩
  intro plan hp d hd
  have := spawnFromAux_lb o.exec pid nextFd plan hp d hd
  omega

theorem c8_dispatch_amended_witness :
    (0 : Nat) < 3 ∧
    (List.Forall₂ (planMatches 7)
        (Options.mk [ExecMode.stdin "c" ["a"], ExecMode.positional "p2" [none, some "z"]]).exec
        (spawnFrom 7 3 ⟨[ExecMode.stdin "c" ["a"], ExecMode.positional "p2" [none, some "z"]]⟩) ∧
      (∀ plan ∈ spawnFrom 7 3 ⟨[ExecMode.stdin "c" ["a"],
          ExecMode.positional "p2" [none, some "z"]]⟩, ∀ d ∈ plan.dupFds, 0 < d) ∧
      List.Pairwise (fun p q => ∀ d ∈ p.dupFds, ∀ e ∈ q.dupFds, d < e)
        (spawnFrom 7 3 ⟨[ExecMode.stdin "c" ["a"], ExecMode.positional "p2" [none, some "z"]]⟩)) :=
  ⟨by decide,
    c8_dispatch_amended 7 0 3 ⟨[ExecMode.stdin "c" ["a"], ExecMode.positional "p2" [none, some "z"]]⟩
      (by decide)⟩

/-! ### Claim C9 -/

theorem land_high_bit (y : Nat) (hy : y < 2 ^ 32) : (y &&& 2 ^ 31 = 0 ↔ y < 2 ^ 31) := by
  constructor
  · intro h
    by_contra hlt
    push_neg at hlt
    have hb : y.testBit 31 = true := by
      rw [Nat.testBit_to_div_mod]
      have h1 : y / 2 ^ 31 = 1 := by
        rw [show (2 : Nat) ^ 31 = 2147483648 from by norm_num]
        rw [show (2 : Nat) ^ 31 = 2147483648 from by norm_num] at hlt
        rw [show (2 : Nat) ^ 32 = 4294967296 from by norm_num] at hy
        omega
      rw [h1]
      rfl
    have hand : (y &&& 2 ^ 31).testBit 31 = true := by
      rw [Nat.testBit_and, hb, Nat.testBit_two_pow_self]
      rfl
    rw [h, Nat.zero_testBit] at hand
    exact Bool.false_ne_true hand
  · intro h
    apply Nat.eq_of_testBit_eq
    intro i
    rw [Nat.testBit_and, Nat.zero_testBit]
    rcases Nat.lt_trichotomy i 31 with hi | hi | hi
    · rw [Nat.testBit_two_pow_of_ne (Nat.ne_of_gt hi)]
      simp
    · subst hi
      rw [Nat.testBit_lt_two_pow h]
      rfl
    · rw [Nat.testBit_two_pow_of_ne (Nat.ne_of_lt hi)]
      simp

theorem lor_mask_land_unmask (a : Nat) (ha : a < 2 ^ 31) :
    (a ||| 2 ^ 31) &&& (2 ^ 31 - 1) = a := by
  have hd : (a ||| 2 ^ 31) &&& (2 ^ 31 - 1) =
      (a &&& (2 ^ 31 - 1)) ||| ((2 ^ 31) &&& (2 ^ 31 - 1)) := by
    rw [Nat.and_comm, Nat.and_or_distrib_left, Nat.and_comm (2 ^ 31 - 1) a,
      Nat.and_comm (2 ^ 31 - 1) (2 ^ 31)]
  rw [hd, Nat.and_pow_two_sub_one_of_lt_two_pow ha, Nat.and_pow_two_sub_one_eq_mod,
    Nat.mod_self, Nat.or_zero]

theorem i32ToU32_of_nonneg (v : Int) (h0 : 0 ≤ v) (hhi : v < 2 ^ 31) :
    i32ToU32 v = v.toNat := by
  simp only [i32ToU32]
  congr 1
  have hI31 : (2 : Int) ^ 31 = 2147483648 := by norm_num
  rw [show (2 : Int) ^ 32 = 4294967296 from by norm_num]
  rw [hI31] at hhi
  omega

theorem i32ToU32_of_neg (v : Int) (hlo : -(2 ^ 31) ≤ v) (hv : v < 0) :
    i32ToU32 v = (v + 2 ^ 32).toNat := by
  simp only [i32ToU32]
  have hI31 : (2 : Int) ^ 31 = 2147483648 := by norm_num
  rw [show (2 : Int) ^ 32 = 4294967296 from by norm_num]
  rw [hI31] at hlo
  congr 1
  omega

/-- C9: for every `i32` value `v` (the two's-complement range), constructing
the niche-packed descriptor wrapper succeeds exactly when `v ≥ 0` — through
`NonNegativeI32::new`, through the `TryFrom<i32>` implementation (whose
success condition is the complement-and-mask `NonZeroU32` test), and through
`RawFileDescriptor::try_new` — and on success `get()` recovers exactly `v`
from the bit-packed representation, so every constructed descriptor wrapper
satisfies the invariant `value ≥ 0`. -/
theorem c9_fd_wrapper_invariant (v : Int) (hlo : -(2 ^ 31) ≤ v) (hhi : v < 2 ^ 31) :
    ((nonNegativeI32New v).isSome ↔ 0 ≤ v) ∧
    ((nonNegativeI32TryFrom v).isSome ↔ 0 ≤ v) ∧
    ((rawFileDescriptorTryNew v).isSome ↔ 0 ≤ v) ∧
    (∀ r, nonNegativeI32New v = some r → nonNegativeI32Get r = v ∧ 0 ≤ nonNegativeI32Get r) ∧
    (∀ r, nonNegativeI32TryFrom v = some r → nonNegativeI32Get r = v) := by
  have hN31 : (2 : Nat) ^ 31 = 2147483648 := by norm_num
  have hN32 : (2 : Nat) ^ 32 = 4294967296 := by norm_num
  have hI31 : (2 : Int) ^ 31 = 2147483648 := by norm_num
  by_cases h0 : 0 ≤ v
  · have hU : i32ToU32 v = v.toNat := i32ToU32_of_nonneg v h0 hhi
    have hvn : v.toNat < 2 ^ 31 := by
      rw [hN31]
      rw [hI31] at hhi
      omega
    have hnew : nonNegativeI32New v = some (v.toNat ||| 2 ^ 31) := by
      simp only [nonNegativeI32New, if_neg (not_lt.mpr h0), hU, NNI32_MASK]
    have hget : nonNegativeI32Get (v.toNat ||| 2 ^ 31) = v := by
      simp only [nonNegativeI32Get]
      have hm : u32Not NNI32_MASK = 2 ^ 31 - 1 := by
        simp only [u32Not, NNI32_MASK, hN31, hN32]
      rw [hm, lor_mask_land_unmask v.toNat hvn]
      simp only [u32ToI32, if_pos hvn]
      exact Int.toNat_of_nonneg h0
    have hcond : ¬ (u32Not (i32ToU32 v) &&& NNI32_MASK = 0) := by
      simp only [hU, u32Not, NNI32_MASK]
      intro h
      have hy : 2 ^ 32 - 1 - v.toNat < 2 ^ 32 := by
        rw [hN32]
        omega
      have := (land_high_bit (2 ^ 32 - 1 - v.toNat) hy).mp h
      rw [hN31, hN32] at *
      omega
    have htry : nonNegativeI32TryFrom v = some (v.toNat ||| 2 ^ 31) := by
      have hcond2 : ¬ (u32Not v.toNat &&& 2 ^ 31 = 0) := by
        simpa only [hU, NNI32_MASK] using hcond
      simp only [nonNegativeI32TryFrom, hU, NNI32_MASK]
      rw [if_neg hcond2]
    refine ⟨?_, ?_, ?_, ?_, ?_⟩
    · rw [hnew]
      simp [h0]
    · rw [htry]
      simp [h0]
    · simp only [rawFileDescriptorTryNew]
      rw [hnew]
      simp [h0]
    · intro r hr
      rw [hnew] at hr
      injection hr with hr
      rw [← hr, hget]
      exact ⟨rfl, h0⟩
    · intro r hr
      rw [htry] at hr
      injection hr with hr
      rw [← hr, hget]
  · push_neg at h0
    have hnew : nonNegativeI32New v = none := by
      simp only [nonNegativeI32New, if_pos h0]
    have hU : i32ToU32 v = (v + 2 ^ 32).toNat := i32ToU32_of_neg v hlo h0
    have hcond : u32Not (i32ToU32 v) &&& NNI32_MASK = 0 := by
      simp only [hU, u32Not, NNI32_MASK]
      have hy : 2 ^ 32 - 1 - (v + 2 ^ 32).toNat < 2 ^ 32 := by
        rw [hN32]
        omega
      refine (land_high_bit _ hy).mpr ?_
      have hb1 : 2 ^ 31 ≤ (v + 2 ^ 32).toNat := by
        rw [hN31, show (2 : Int) ^ 32 = 4294967296 from by norm_num]
        rw [hI31] at hlo
        omega
      rw [hN31, hN32] at *
      omega
    have htry : nonNegativeI32TryFrom v = none := by
      simp only [nonNegativeI32TryFrom, if_pos hcond]
    have hns : ¬ (0 ≤ v) := not_le.mpr h0
    refine ⟨?_, ?_, ?_, ?_, ?_⟩
    · rw [hnew]
      simpa using hns
    · rw [htry]
      simpa using hns
    · simp only [rawFileDescriptorTryNew]
      rw [hnew]
      simpa using hns
    · intro r hr
      rw [hnew] at hr
      exact absurd hr (by simp)
    · intro r hr
      rw [htry] at hr
      exact absurd hr (by simp)

theorem c9_fd_wrapper_invariant_witness :
    ((nonNegativeI32New 5).isSome ↔ 0 ≤ (5 : Int)) ∧
    (nonNegativeI32Get 2147483653 = 5 ∧ 0 ≤ nonNegativeI32Get 2147483653) :=
  ⟨(c9_fd_wrapper_invariant 5 (by norm_num) (by norm_num)).1,
   (c9_fd_wrapper_invariant 5 (by norm_num) (by norm_num)).2.2.2.1 2147483653 (by decide)⟩

example : parseFrom ["-exec", "cmd", "a", "b", "c", ";"] =
    .ok ⟨[.stdin "cmd" ["a", "b", "c"]]⟩ := by decide

example : parseFrom ["-exec\x7b\x7d", "cmd2", "d", "\x7b\x7d", "e"] =
    .ok ⟨[.positional "cmd2" [some "d", none, some "e"]]⟩ := by decide

example : parseFrom ["-exec", "c", ";", "x"] =
    .error (.withIndex 2 (.unknownOption "x")) := by decide

example : zipArgs [some "a", none, some "b", none, some "c"] ["X"] =
    ["a", "X", "b", "c"] := by decide
